import Mathlib

/-!
Verification development for the statik repository: an in-memory
zip-archive-backed HTTP file system (`fs/fs.go`), the tree walker
(`fs/walk.go`), the working-directory wrapper (`fs/chdir.go`) and the
archive builder (`ziptree`).

Go strings are modelled as lists of characters (`GoStr`), byte slices as
lists of naturals (`Bytes`).  Go maps (`map[string]file`) are modelled as
association lists with unique keys kept in insertion order; Go's map
iteration order is unspecified, so theorems that depend on an iteration
order fix insertion order as one admissible order and are noted as such.
-/

namespace Statik

abbrev GoStr := List Char
abbrev Bytes := List Nat

/-- Convert a Lean string literal to the `GoStr` model of a Go string. -/
def gs (s : String) : GoStr := s.toList

/-! ## Go standard library: strings and path packages -/

/-- Model of `strings.Replace(s, "//", "/", -1)`: replace every
non-overlapping occurrence of `//` by `/`, scanning left to right.
This is the normalization statikFS.Open applies before lookup. -/
def collapseSlashes : GoStr → GoStr
  | [] => []
  | [c] => [c]
  | a :: b :: rest =>
    if a = '/' ∧ b = '/' then '/' :: collapseSlashes rest
    else a :: collapseSlashes (b :: rest)

/-- Model of `strings.HasPrefix(s, pre)`. -/
def goStartsWith : GoStr → GoStr → Bool
  | _, [] => true
  | [], _ :: _ => false
  | c :: s, p :: ps => c = p && goStartsWith s ps

/-- Split a string at every `/` (the pieces between separators; a string
with no separator yields one piece).  Auxiliary for `path.Clean`. -/
def splitSlash : GoStr → List GoStr
  | [] => [[]]
  | '/' :: rest => [] :: splitSlash rest
  | c :: rest =>
    match splitSlash rest with
    | h :: t => (c :: h) :: t
    | [] => [[c]]

/-- Join components with `/` separators (inverse of `splitSlash`). -/
def joinSlash : List GoStr → GoStr
  | [] => []
  | [c] => c
  | c :: rest => c ++ '/' :: joinSlash rest

/-- Whether a path is rooted (begins with `/`), as in Go's `path.Clean`. -/
def isRooted : GoStr → Bool
  | '/' :: _ => true
  | _ => false

/-- The components of a path that `path.Clean` actually processes:
empty components (from `//` or edges) and `.` components are dropped. -/
def goodParts (s : GoStr) : List GoStr :=
  (splitSlash s).filter fun c => !(c == []) && !(c == ['.'])

/-- One step of the `path.Clean` element loop, operating on the output
stack (held top-first): a `..` pops the previous component unless the
stack is empty (rooted: dropped; unrooted: kept) or already holds `..`. -/
def cleanStep (rooted : Bool) (st : List GoStr) (c : GoStr) : List GoStr :=
  if c = ['.', '.'] then
    match st with
    | top :: rest => if top = ['.', '.'] then c :: top :: rest else rest
    | [] => if rooted then [] else [c]
  else c :: st

/-- Run the `path.Clean` element loop over a component list. -/
def cleanStack (rooted : Bool) (cs : List GoStr) : List GoStr :=
  cs.foldl (cleanStep rooted) []

/-- Serialize the `path.Clean` output stack back to a path string. -/
def serializeClean (rooted : Bool) (st : List GoStr) : GoStr :=
  let comps := st.reverse
  if rooted then '/' :: joinSlash comps
  else if comps = [] then ['.'] else joinSlash comps

/-- Model of Go's `path.Clean` (identical to `filepath.Clean` on a
slash-separated OS): purely lexical processing that removes `.` and
empty components, resolves `..` against preceding components, drops
rooted leading `..`, and returns `.` for an empty result. -/
def pathClean (s : GoStr) : GoStr :=
  if s = [] then ['.']
  else serializeClean (isRooted s) (cleanStack (isRooted s) (goodParts s))

/-- Everything up to and including the last `/` of a path (the `dir`
half of Go's `path.Split`). -/
def dirPart (s : GoStr) : GoStr :=
  (s.reverse.dropWhile (· ≠ '/')).reverse

/-- Model of Go's `path.Dir`: `Clean` of the part up to the final slash.
This is what `New` uses to synthesize parent directory keys. -/
def pathDir (s : GoStr) : GoStr :=
  pathClean (dirPart s)

/-- Model of Go's `path.Base`: the last element of the path, after
stripping trailing slashes; `.` for empty, `/` for all-slashes. -/
def pathBase (s : GoStr) : GoStr :=
  if s = [] then ['.']
  else
    let t := (s.reverse.dropWhile (· = '/')).reverse
    if t = [] then ['/']
    else (t.reverse.takeWhile (· ≠ '/')).reverse

/-- Model of Go's variadic `path.Join`/`filepath.Join` (slash OS): empty
elements are skipped, the rest are joined with `/` and cleaned; all-empty
input yields the empty string. -/
def goJoin (elems : List GoStr) : GoStr :=
  let ne := elems.filter (fun e => !(e == []))
  if ne = [] then [] else pathClean (joinSlash ne)

/-- Binary `filepath.Join`, as used by `chdir.go` and `walk.go`. -/
def pathJoin2 (a b : GoStr) : GoStr := goJoin [a, b]

/-! Sanity checks of the path model against Go behavior. -/

example : pathClean (gs "//a") = gs "/a" := by decide
example : pathClean (gs "/a/b/") = gs "/a/b" := by decide
example : pathClean (gs "") = gs "." := by decide
example : pathClean (gs "/..") = gs "/" := by decide
example : pathClean (gs "a/../..") = gs ".." := by decide
example : pathClean (gs "../../a") = gs "../../a" := by decide
example : pathClean (gs "/a/b/../c") = gs "/a/c" := by decide
example : pathDir (gs "/aa/bb/c") = gs "/aa/bb" := by decide
example : pathDir (gs "/a") = gs "/" := by decide
example : pathDir (gs "/") = gs "/" := by decide
example : pathBase (gs "/sub_dir") = gs "sub_dir" := by decide
example : pathBase (gs "/") = gs "/" := by decide
example : pathJoin2 (gs "/") (gs "/aa/bb") = gs "/aa/bb" := by decide
example : pathJoin2 (gs "/aa") (gs "c") = gs "/aa/c" := by decide
example : collapseSlashes (gs "a//b") = gs "a/b" := by decide
example : collapseSlashes (gs "////") = gs "//" := by decide

/-! ## Go errors relevant to the modelled code -/

/-- The errors the modelled code can return: `os.ErrNotExist`, `io.EOF`,
the walker's `SkipDir` sentinel and `bytes.Reader` seek errors. -/
inductive GoError where
  | notExist
  | eof
  | skipDir
  | negativePosition
  | invalidWhence
  deriving DecidableEq

/-! ## ziptree.Zip (archive builder, `src/unnamed/part_003`) -/

/-- A regular file of the source tree handed to `ziptree.Zip`: its path
relative to `srcPath` as components, its contents and metadata.  The
list order is the `filepath.Walk` (lexical) visit order. -/
structure SrcFile where
  path : List GoStr
  data : Bytes
  mode : Nat
  modTime : Nat
  deriving DecidableEq

/-- An entry of the produced archive: slash-joined relative name (no
leading slash), payload and metadata.  The zip container itself
(compression, CRC, central directory) is lossless plumbing and is not
modelled; `unzip` in `fs.go` recovers exactly `data`. -/
structure ZipEntry where
  name : GoStr
  data : Bytes
  mode : Nat
  modTime : Nat
  deriving DecidableEq

/-- The base name of a source file (`fi.Name()` in the walk callback). -/
def srcBaseName (f : SrcFile) : GoStr := (f.path.getLast?).getD []

/-- Whether a base name is hidden (starts with a dot); `Zip` skips such
files: `strings.HasPrefix(fi.Name(), ".")`. -/
def isHiddenName : GoStr → Bool
  | '.' :: _ => true
  | _ => false

/-- Model of `ziptree.Zip` (default options): walk the tree in order,
skip directories (never emitted) and hidden files, store each remaining
regular file under its slash-joined relative path with its contents and
metadata.  The `Compress` and `FixMtime` options only change the byte
encoding and the stored timestamp and are orthogonal to the claims. -/
def Zip (tree : List SrcFile) : List ZipEntry :=
  tree.filterMap fun f =>
    if isHiddenName (srcBaseName f) then none
    else some ⟨joinSlash f.path, f.data, f.mode, f.modTime⟩

/-! ## statik fs (`src/fs/fs.go`) -/

/-- The `os.ModeDir` bit of a Go `FileMode`. -/
def modeDirBit : Nat := 2 ^ 31

/-- The `os.FileInfo` a map entry carries: either the header info of a
zip entry (whose `Name()` is `path.Base` of the entry name, per
`archive/zip`), or the synthesized `dirInfo` of `fs.go`, whose `Name()`
returns the stored string unchanged (the full directory path `dn`),
whose mode is the fixed `0755 | os.ModeDir`, and whose modification
time is the zero time (modelled as `0`). -/
inductive FileInfo where
  | zipInfo (bname : GoStr) (size : Nat) (mode : Nat) (modTime : Nat)
  | dirInfo (dname : GoStr)
  deriving DecidableEq

/-- The `Name()` method. -/
def FileInfo.fiName : FileInfo → GoStr
  | .zipInfo b _ _ _ => b
  | .dirInfo d => d

/-- The `IsDir()` method (`Mode().IsDir()` for zip header infos). -/
def FileInfo.fiIsDir : FileInfo → Bool
  | .zipInfo _ _ m _ => decide (m / modeDirBit % 2 = 1)
  | .dirInfo _ => true

/-- The `Mode()` method. -/
def FileInfo.fiMode : FileInfo → Nat
  | .zipInfo _ _ m _ => m
  | .dirInfo _ => 0o755 + modeDirBit

/-- The `ModTime()` method (`0` is the zero time `time.Time{}`). -/
def FileInfo.fiModTime : FileInfo → Nat
  | .zipInfo _ _ _ t => t
  | .dirInfo _ => 0

/-- The `Size()` method. -/
def FileInfo.fiSize : FileInfo → Nat
  | .zipInfo _ s _ _ => s
  | .dirInfo _ => 0

/-- The `file` struct of `fs.go`: unzipped read-only contents plus the
embedded `os.FileInfo`.  The back pointer `fs *statikFS` is not stored
here; the model passes the file system to `Readdir` through the handle
instead (the pointer is only ever used for that lookup). -/
structure GoFile where
  info : FileInfo
  data : Bytes
  deriving DecidableEq

/-- The Go map `map[string]file`, modelled as an association list with
unique keys in insertion order. -/
abbrev Index := List (GoStr × GoFile)

/-- First-match association-list lookup (keys are unique). -/
def lookupAL (k : GoStr) : Index → Option GoFile
  | [] => none
  | (k', v) :: rest => if k' = k then some v else lookupAL k rest

/-- Whether a key is present. -/
def containsKey (k : GoStr) (m : Index) : Bool := (lookupAL k m).isSome

/-- Go map assignment `m[k] = v`: replace in place or append. -/
def insertAL (k : GoStr) (v : GoFile) : Index → Index
  | [] => [(k, v)]
  | (k', v') :: rest =>
    if k' = k then (k, v) :: rest else (k', v') :: insertAL k v rest

/-- The `file` built for one zip entry in `New`'s first loop:
`FileInfo` from the zip header (base name, uncompressed size, mode,
modification time) and the fully unzipped payload. -/
def zipEntryFile (e : ZipEntry) : GoFile :=
  ⟨.zipInfo (pathBase e.name) e.data.length e.mode e.modTime, e.data⟩

/-- First loop of `New`: index every entry under `"/" + zipFile.Name`. -/
def indexFiles (entries : List ZipEntry) : Index :=
  entries.foldl (fun m e => insertAL ('/' :: e.name) (zipEntryFile e) m) []

/-- Second loop of `New`: `for fn := range files` inserting the missing
parent `path.Dir(fn)` of each key as a synthesized directory entry.
Go's range over a map being mutated guarantees visiting exactly the
keys present when the loop starts (newly inserted keys "may be skipped",
Go spec); the model therefore iterates the original key list only,
which is the behavior the code guarantees on every Go implementation. -/
def addParents (m0 : Index) : Index :=
  (m0.map Prod.fst).foldl
    (fun m fn =>
      let dn := pathDir fn
      if containsKey dn m then m else insertAL dn ⟨.dirInfo dn, []⟩ m)
    m0

/-- The `statikFS` struct: the in-memory index. -/
structure StatikFS where
  files : Index
  deriving DecidableEq

/-- Model of `fs.New()` composed with `fs.Register`: `none` plays the
role of the unset `zipData` global ("no zip data registered"); a
registered archive is decoded into the index and parents are added. -/
def New (registered : Option (List ZipEntry)) : Option StatikFS :=
  registered.map fun entries => ⟨addParents (indexFiles entries)⟩

/-- Build the file system of a source tree: `Zip`, `Register`, `New`. -/
def statikOf (tree : List SrcFile) : StatikFS :=
  ⟨addParents (indexFiles (Zip tree))⟩

/-- The `httpFile` handle of `fs.go`: the entry's info and data, the
`*bytes.Reader` (`none` models the nil pointer of directory handles)
and the `isDir` flag. -/
structure HTTPFile where
  info : FileInfo
  fdata : Bytes
  reader : Option Bytes
  isDir : Bool
  fs : StatikFS
  deriving DecidableEq

/-- `newHTTPFile`: directory entries get no reader (nil pointer),
regular entries get a fresh reader over the entry's bytes. -/
def newHTTPFile (fsy : StatikFS) (f : GoFile) : HTTPFile :=
  if f.info.fiIsDir then ⟨f.info, f.data, none, true, fsy⟩
  else ⟨f.info, f.data, some f.data, false, fsy⟩

/-- `statikFS.Open`: collapse `//` to `/`, then look the name up in the
index; `os.ErrNotExist` (here `none`) when absent, otherwise a fresh
handle over the indexed entry. -/
def StatikFS.Open (fsy : StatikFS) (name : GoStr) : Option HTTPFile :=
  (lookupAL (collapseSlashes name) fsy.files).map (newHTTPFile fsy)

/-- `httpFile.Seek`: dereferences `f.reader` unconditionally; on a
directory handle the reader is nil, so the call faults (modelled as
`none`).  On a regular handle it computes the new offset from `cur`
like `bytes.Reader.Seek` and fails only on invalid whence or negative
result. -/
def HTTPFile.seekGo (f : HTTPFile) (cur : Int) (offset : Int)
    (whence : Nat) : Option (Int × Option GoError) :=
  match f.reader with
  | none => none
  | some data =>
    if whence > 2 then some (0, some .invalidWhence)
    else
      let abs : Int :=
        if whence = 0 then offset
        else if whence = 1 then cur + offset
        else (data.length : Int) + offset
      if abs < 0 then some (0, some .negativePosition) else some (abs, none)

/-- `httpFile.Stat`: returns the handle itself (acting as its embedded
`os.FileInfo`, with `IsDir` overridden by the equal `isDir` flag) and a
nil error — it never fails. -/
def HTTPFile.statGo (f : HTTPFile) : FileInfo × Option GoError :=
  (f.info, none)

/-- `httpFile.Readdir`: an empty result and nil error for non-directory
handles; for a directory handle it scans the whole index and returns
the `FileInfo` of every key that has the handle's `Name()` — the full
directory path, for `dirInfo` — as a strict string prefix.  The `count`
argument is ignored and the error is always nil.  Entries are produced
in the index's insertion order (one admissible order of Go's
unspecified map iteration; no claim below depends on the order). -/
def HTTPFile.readdirGo (f : HTTPFile) (count : Int) : List FileInfo × Option GoError :=
  if !f.isDir then ([], none)
  else
    let dirName := f.info.fiName
    ((f.fs.files.filterMap fun kv =>
        if goStartsWith kv.1 dirName && decide (dirName.length < kv.1.length)
        then some kv.2.info else none),
      none)

/-! Sanity checks of the fs model. -/

example : (statikOf [⟨[gs "a"], [1, 2], 0o644, 7⟩]).files =
    [(gs "/a", ⟨.zipInfo (gs "a") 2 0o644 7, [1, 2]⟩),
     (gs "/", ⟨.dirInfo (gs "/"), []⟩)] := by decide

example :
    ((statikOf [⟨[gs "sub", gs "x"], [9], 0o644, 7⟩]).Open (gs "/sub")).map
      (fun h => h.isDir) = some true := by decide

/-! ## fs.Walk (`src/fs/walk.go`) -/

/-- One invocation of the walk callback: the path argument, the
`os.FileInfo` argument and the error argument it received. -/
structure VisitCall where
  vpath : GoStr
  vinfo : Option FileInfo
  verr : Option GoError
  deriving DecidableEq

/-- A walk callback (`WalkFunc`), modelled as a pure function returning
`none` for a nil error, `some .skipDir` for the sentinel, or another
error. -/
abbrev VisitFn := GoStr → Option FileInfo → Option GoError → Option GoError

/-- Model of `fs.Walk`, instrumented to record every callback
invocation.  `fuel` bounds the recursion depth (the Go code recurses on
joined child paths); `none` means the fuel ran out, which no theorem
below relies on.  Faithful to `walk.go`: an `Open` error on the current
path — including the root — is returned directly *without* invoking the
callback; `Stat` and `Readdir` of this file system never fail, and the
(nil) `Readdir` error is what the callback receives as its error
argument; a `SkipDir` from the callback on the current directory
returns nil; children are processed in `Readdir` order, directories by
recursion (a recursive `SkipDir` result continues with the next child),
files by direct callback, and any other error aborts the walk. -/
def walkGo : Nat → StatikFS → GoStr → VisitFn →
    Option (List VisitCall × Option GoError)
  | 0, _, _, _ => none
  | fuel + 1, fsy, root, visit =>
    match fsy.Open root with
    | none => some ([], some .notExist)
    | some dh =>
      let di := (dh.statGo).1
      let fis := (dh.readdirGo (-1)).1
      match visit root (some di) none with
      | some e =>
        some ([⟨root, some di, none⟩], if e = .skipDir then none else some e)
      | none =>
        fis.foldl
          (fun st fi =>
            match st with
            | none => none
            | some (acc, some e) => some (acc, some e)
            | some (acc, none) =>
              let fn := pathJoin2 root fi.fiName
              if fi.fiIsDir then
                match walkGo fuel fsy fn visit with
                | none => none
                | some (vs, some e) =>
                  if e = .skipDir then some (acc ++ vs, none)
                  else some (acc ++ vs, some e)
                | some (vs, none) => some (acc ++ vs, none)
              else
                match visit fn (some fi) none with
                | some e =>
                  if e = .skipDir then some (acc ++ [⟨fn, some fi, none⟩], none)
                  else some (acc ++ [⟨fn, some fi, none⟩], some e)
                | none => some (acc ++ [⟨fn, some fi, none⟩], none))
          (some ([⟨root, some di, none⟩], none))

/-- The callback that records visits and never signals anything. -/
def nilVisit : VisitFn := fun _ _ _ => none

/-! ## fs.Chdir (`src/fs/chdir.go`) -/

/-- The result of `Open` + `Stat` on an arbitrary base `http.FileSystem`
file: `statDir = none` models a `Stat` error, `some b` a successful
`Stat` with `IsDir() = b`. -/
structure BaseFile where
  statDir : Option Bool

/-- An arbitrary base `http.FileSystem`, reduced to the observations
`Chdir` and `chdirFileSystem.Open` make of it: the outcome of opening a
name (`none` = open error) and statting the result. -/
structure BaseFS where
  openPath : GoStr → Option BaseFile

/-- The file systems `chdir.go` manipulates: an arbitrary base, or a
`chdirFileSystem{prefix, system}` wrapper (the `system` field may in
principle be any file system, hence the recursion). -/
inductive HFS where
  | base (b : BaseFS)
  | chdirFS (pre : GoStr) (sys : HFS)

/-- `Open` through the wrapper chain: `chdirFileSystem.Open` cleans the
name and delegates to `system.Open(filepath.Join(prefix, name))`. -/
def HFS.hfsOpen : HFS → GoStr → Option BaseFile
  | .base b, n => b.openPath n
  | .chdirFS p s, n => s.hfsOpen (pathJoin2 p (pathClean n))

/-- `isExistingDir`: open, stat, and report `IsDir`; any failure counts
as not-a-directory. -/
def isExistingDir (fsy : HFS) (dir : GoStr) : Bool :=
  match fsy.hfsOpen dir with
  | none => false
  | some f =>
    match f.statDir with
    | none => false
    | some b => b

/-- Model of `fs.Chdir`: on a `chdirFileSystem` the prefixes are
composed (`filepath.Clean(filepath.Join(old, dir))`) over the same
underlying system; on any other file system a wrapper with prefix `dir`
(uncleaned) is created; in both cases `os.ErrNotExist` (`none`) is
returned unless `dir` opens and stats as a directory. -/
def Chdir (fsy : HFS) (dir : GoStr) : Option HFS :=
  match fsy with
  | .chdirFS p s =>
    if isExistingDir (.chdirFS p s) dir
    then some (.chdirFS (pathClean (pathJoin2 p dir)) s)
    else none
  | .base b =>
    if isExistingDir (.base b) dir then some (.chdirFS dir (.base b)) else none

/-! Sanity checks of the walk model. -/

example :
    walkGo 5 (statikOf [⟨[gs "a"], [1], 0o644, 7⟩]) (gs "/") nilVisit =
      some ([⟨gs "/", some (.dirInfo (gs "/")), none⟩,
             ⟨gs "/a", some (.zipInfo (gs "a") 1 0o644 7), none⟩], none) := by
  decide

/-! ## Fixtures: concrete archives used by the claims -/

/-- The `testdata/deep` tree of the repository's tests: regular files
`a` and `aa/bb/c`. -/
def deepTree : List SrcFile :=
  [⟨[gs "a"], [1], 0o644, 3⟩, ⟨[gs "aa", gs "bb", gs "c"], [2], 0o644, 3⟩]

/-- The file system built from `deepTree`. -/
def deepFS : StatikFS := statikOf deepTree

/-- A root directory with three regular files, as in the repository's
`TestHTTPFile_Readdir` setup (three children under `/`). -/
def threeFS : StatikFS :=
  statikOf [⟨[gs "aa"], [1], 0o644, 0⟩, ⟨[gs "bb"], [2], 0o644, 0⟩,
            ⟨[gs "cc"], [3], 0o644, 0⟩]

/-- A tree giving directory `/aa` one deep descendant (`/aa/b/c`), one
direct file child (`/aa/x`), plus a sibling file `/aab` whose name
shares the string prefix `/aa`. -/
def siblingFS : StatikFS :=
  statikOf [⟨[gs "aa", gs "x"], [1], 0o644, 0⟩,
            ⟨[gs "aa", gs "b", gs "c"], [2], 0o644, 0⟩,
            ⟨[gs "aab"], [3], 0o644, 0⟩]

/-- The `testdata/index` tree: `index.html` and `sub_dir/index.html`. -/
def subdirFS : StatikFS :=
  statikOf [⟨[gs "index.html"], [1, 2], 0o644, 9⟩,
            ⟨[gs "sub_dir", gs "index.html"], [3, 4], 0o644, 9⟩]

/-! ## The claims -/

/-- C2: after `New` on an archive whose only entry is `aa/bb/c`, the
index is guaranteed to contain the immediate parent `/aa/bb`, but
neither the deeper ancestor `/aa` nor the root `/`: the synthesis loop
ranges over the map it is inserting into, and the Go specification
guarantees only that keys present at the start of the loop are visited
(newly inserted keys may be skipped).  The claim — every ancestor up to
and including `/` is always indexed — therefore fails on deep paths,
and the repository's own test (`TestOpen`, case "listed all sub
directories in deep directory") expects `/aa` and `/` to be present. -/
theorem statik_c2_deep_ancestors_missing :
    containsKey (gs "/aa/bb") (statikOf [⟨[gs "aa", gs "bb", gs "c"], [2], 0o644, 3⟩]).files = true ∧
    containsKey (gs "/aa") (statikOf [⟨[gs "aa", gs "bb", gs "c"], [2], 0o644, 3⟩]).files = false ∧
    containsKey (gs "/") (statikOf [⟨[gs "aa", gs "bb", gs "c"], [2], 0o644, 3⟩]).files = false := by
  decide

/-- C3: `httpFile.Readdir` ignores `count` entirely and keeps no cursor:
on the root of a file system with three children, `Readdir(1)` returns
all three entries (not at most one) with a nil error, and calling it
again returns the same three entries again — the cursor never advances,
nothing is ever exhausted and `EndOfFile` is never returned, contrary
to the claim and to the repository's own `TestHTTPFile_Readdir`. -/
theorem statik_c3_readdir_ignores_count :
    (threeFS.Open (gs "/")).map
        (fun h => ((h.readdirGo 1).1.length, (h.readdirGo 1).2)) =
      some (3, none) := by
  decide

/-- C4: `Readdir` on directory `/aa` returns every indexed entry whose
path has `/aa` as a strict string prefix: not only the direct children
`/aa/x` and `/aa/b`, but also the deeper descendant `/aa/b/c` and the
sibling `/aab`, whose name merely shares the string prefix.  The claim
(direct children only, no string-prefix siblings) fails; the result
below lists the entries in the model's index order. -/
theorem statik_c4_readdir_prefix_scan :
    (siblingFS.Open (gs "/aa")).map (fun h => (h.readdirGo (-1)).1) =
      some [.zipInfo (gs "x") 1 0o644 0,
            .zipInfo (gs "c") 1 0o644 0,
            .zipInfo (gs "aab") 1 0o644 0,
            .dirInfo (gs "/aa/b")] := by
  decide

/-- C6: walking the `deep` tree from `/` does not visit
`{/, /a, /aa, /aa/bb, /aa/bb/c}`: `/aa` is never synthesized (C2) so it
is never visited, and because `Readdir` of `/` returns the deep
descendant `/aa/bb/c` (C4) — whose `FileInfo.Name()` is the base name
`c` — the walker joins it to the root and visits the non-existent path
`/c`.  The recorded visit sequence under the model's index order is
`/`, `/a`, `/c`, `/aa/bb`, `/aa/bb/c`. -/
theorem statik_c6_walk_deep_wrong_visits :
    walkGo 10 deepFS (gs "/") nilVisit =
      some ([⟨gs "/", some (.dirInfo (gs "/")), none⟩,
             ⟨gs "/a", some (.zipInfo (gs "a") 1 0o644 3), none⟩,
             ⟨gs "/c", some (.zipInfo (gs "c") 1 0o644 3), none⟩,
             ⟨gs "/aa/bb", some (.dirInfo (gs "/aa/bb")), none⟩,
             ⟨gs "/aa/bb/c", some (.zipInfo (gs "c") 1 0o644 3), none⟩],
            none) := by
  decide

/-- C7: when opening the root fails, `Walk` returns the error directly
(`walk.go` lines 49–51) without ever invoking the callback: the
recorded invocation list is empty while `os.ErrNotExist` is propagated,
contradicting the claim (and the function's own documentation) that
`visit` sees every open error first. -/
theorem statik_c7_root_error_skips_callback :
    walkGo 5 deepFS (gs "/missing") nilVisit = some ([], some .notExist) := by
  decide

/-- C8: `Stat` on the handle of the synthesized directory `/sub_dir`
always succeeds, with the fixed directory mode `0755 | os.ModeDir` and
the zero modification time, but its `Name()` is the full path
`/sub_dir` — `dirInfo.Name` returns the stored `dn` unchanged — and not
the base name `sub_dir` that the claim (and the repository's own
`TestOpen`) requires. -/
theorem statik_c8_dir_stat_name_is_full_path :
    (subdirFS.Open (gs "/sub_dir")).map
        (fun h => (h.statGo.2, h.statGo.1.fiName, h.statGo.1.fiMode,
                   h.statGo.1.fiModTime)) =
      some (none, gs "/sub_dir", 0o755 + modeDirBit, 0) ∧
    pathBase (gs "/sub_dir") = gs "sub_dir" := by
  constructor
  · decide
  · decide

/-- C5: `Open(name)` first rewrites every `//` in `name` to `/`
(left-to-right, as `strings.Replace(name, "//", "/", -1)` does) and then
fails with `NotFound` if and only if the index has no entry at the
rewritten path; on success it returns `newHTTPFile` of the indexed
entry, i.e. a handle bound to it. -/
theorem statik_c5_open_normalizes_then_looks_up :
    ∀ (fsy : StatikFS) (name : GoStr),
      (fsy.Open name = none ↔ lookupAL (collapseSlashes name) fsy.files = none) ∧
      (∀ g, lookupAL (collapseSlashes name) fsy.files = some g →
        fsy.Open name = some (newHTTPFile fsy g)) := by
  intro fsy name
  unfold StatikFS.Open
  cases h : lookupAL (collapseSlashes name) fsy.files <;> simp

/-- Witness for C5 at a concrete input: on the one-file system, opening
`"//a"` (which normalizes to `/a`) succeeds with the handle bound to
the indexed entry. -/
theorem statik_c5_witness :
    (statikOf [⟨[gs "a"], [1, 2], 0o644, 7⟩]).Open (gs "//a") =
      some (newHTTPFile (statikOf [⟨[gs "a"], [1, 2], 0o644, 7⟩])
        ⟨.zipInfo (gs "a") 2 0o644 7, [1, 2]⟩) :=
  (statik_c5_open_normalizes_then_looks_up
    (statikOf [⟨[gs "a"], [1, 2], 0o644, 7⟩]) (gs "//a")).2
    ⟨.zipInfo (gs "a") 2 0o644 7, [1, 2]⟩ (by decide)

/-- C10: every handle `Open` returns for a directory entry carries a nil
reader, and `Seek` on it dereferences that nil reader (a fault, modelled
as `none`) instead of returning an error; every handle for a regular
entry carries a real reader, and `Seek` on it always returns a value
(possibly with a `bytes.Reader` error) and never reaches the fault. -/
theorem statik_c10_seek_nil_reader_on_dirs :
    ∀ (fsy : StatikFS) (name : GoStr) (h : HTTPFile),
      fsy.Open name = some h →
      (h.isDir = true →
        h.reader = none ∧ ∀ cur off whence, h.seekGo cur off whence = none) ∧
      (h.isDir = false →
        h.reader = some h.fdata ∧
          ∀ cur off whence, ∃ r, h.seekGo cur off whence = some r) := by
  intro fsy name h hopen
  unfold StatikFS.Open at hopen
  rcases Option.map_eq_some'.mp hopen with ⟨g, _, hg⟩
  subst hg
  by_cases hdir : g.info.fiIsDir = true
  · have hnew : newHTTPFile fsy g = ⟨g.info, g.data, none, true, fsy⟩ := by
      simp [newHTTPFile, hdir]
    rw [hnew]
    constructor
    · intro _
      exact ⟨rfl, fun _ _ _ => rfl⟩
    · intro hc
      exact Bool.noConfusion hc
  · have hnew : newHTTPFile fsy g = ⟨g.info, g.data, some g.data, false, fsy⟩ := by
      simp [newHTTPFile, hdir]
    rw [hnew]
    constructor
    · intro hc
      exact Bool.noConfusion hc
    · intro _
      refine ⟨rfl, ?_⟩
      intro cur off whence
      show ∃ r,
        (if whence > 2 then some ((0 : Int), some GoError.invalidWhence)
          else
            let abs : Int :=
              if whence = 0 then off
              else if whence = 1 then cur + off
              else ((g.data).length : Int) + off
            if abs < 0 then some (0, some .negativePosition)
            else some (abs, none)) = some r
      split
      · exact ⟨_, rfl⟩
      · dsimp only
        repeat' split
        all_goals exact ⟨_, rfl⟩

/-- The file system of C10's witness: one regular file `d/f`. -/
def c10FS : StatikFS := statikOf [⟨[gs "d", gs "f"], [5], 0o644, 0⟩]

/-- Witness for C10: on a system with the file `d/f`, the directory
handle for `/d` has no reader and seeking it faults, while seeking the
regular-file handle for `/d/f` returns a value. -/
theorem statik_c10_witness :
    (∃ hD, c10FS.Open (gs "/d") = some hD ∧ hD.seekGo 0 3 0 = none) ∧
    (∃ hF, c10FS.Open (gs "/d/f") = some hF ∧ ∃ r, hF.seekGo 0 3 0 = some r) := by
  constructor
  · refine ⟨newHTTPFile c10FS ⟨.dirInfo (gs "/d"), []⟩, by decide, ?_⟩
    exact ((statik_c10_seek_nil_reader_on_dirs c10FS (gs "/d") _ (by decide)).1
      (by decide)).2 0 3 0
  · refine ⟨newHTTPFile c10FS ⟨.zipInfo (gs "f") 1 0o644 0, [5]⟩, by decide, ?_⟩
    exact ((statik_c10_seek_nil_reader_on_dirs c10FS (gs "/d/f") _ (by decide)).2
      (by decide)).2 0 3 0

/-! ## Lemmas for the round-trip claim (C1) -/

/-- A string with no two adjacent slashes. -/
def noDS : GoStr → Bool
  | [] => true
  | [_] => true
  | a :: b :: rest => !(a = '/' && b = '/') && noDS (b :: rest)

/-- The `//` collapsing of `Open` leaves a string without adjacent
slashes unchanged. -/
theorem collapse_id : ∀ (s : GoStr), noDS s = true → collapseSlashes s = s
  | [], _ => rfl
  | [_], _ => rfl
  | a :: b :: rest, h => by
    have hsplit : (!(a = '/' && b = '/')) = true ∧ noDS (b :: rest) = true := by
      have : (!(a = '/' && b = '/') && noDS (b :: rest)) = true := h
      exact Bool.and_eq_true_iff.mp this
    have hne : ¬(a = '/' ∧ b = '/') := by
      intro ⟨h1, h2⟩
      simp [h1, h2] at hsplit
    show (if a = '/' ∧ b = '/' then '/' :: collapseSlashes rest
        else a :: collapseSlashes (b :: rest)) = a :: b :: rest
    rw [if_neg hne, collapse_id (b :: rest) hsplit.2]

/-- Prepending a non-slash character preserves `noDS`. -/
theorem noDS_cons_of_ne (a : Char) (s : GoStr) (ha : a ≠ '/')
    (hs : noDS s = true) : noDS (a :: s) = true := by
  cases s with
  | nil => rfl
  | cons h t =>
    show (!(a = '/' && h = '/') && noDS (h :: t)) = true
    simp [ha, hs]

/-- A slash-free string has no adjacent slashes. -/
theorem noDS_of_slashFree : ∀ (s : GoStr), '/' ∉ s → noDS s = true
  | [], _ => rfl
  | a :: t, h => by
    have ha : a ≠ '/' := fun e => h (e ▸ List.mem_cons_self a t)
    exact noDS_cons_of_ne a t ha
      (noDS_of_slashFree t (fun m => h (List.mem_cons_of_mem a m)))

/-- Appending after a slash-free block preserves `noDS`. -/
theorem noDS_append_left : ∀ (c t : GoStr), '/' ∉ c → noDS t = true →
    noDS (c ++ t) = true
  | [], t, _, ht => ht
  | a :: c', t, hc, ht => by
    have ha : a ≠ '/' := fun e => hc (e ▸ List.mem_cons_self a c')
    exact noDS_cons_of_ne a (c' ++ t) ha
      (noDS_append_left c' t (fun m => hc (List.mem_cons_of_mem a m)) ht)

/-- A root slash followed by a nonempty slash-free block and any
`noDS` remainder has no adjacent slashes. -/
theorem noDS_root_append (c t : GoStr) (hne : c ≠ []) (hc : '/' ∉ c)
    (ht : noDS t = true) : noDS ('/' :: (c ++ t)) = true := by
  cases c with
  | nil => exact absurd rfl hne
  | cons ch ct =>
    have hch : ch ≠ '/' := fun e => hc (e ▸ List.mem_cons_self ch ct)
    show (!(('/' : Char) = '/' && ch = '/') && noDS (ch :: (ct ++ t))) = true
    have htail : noDS (ch :: ct ++ t) = true :=
      noDS_append_left (ch :: ct) t hc ht
    simp [hch]
    exact htail

/-- The index key `"/" + joinSlash comps` of a well-formed relative
path has no adjacent slashes, so `Open` leaves it unchanged. -/
theorem noDS_key : ∀ (comps : List GoStr),
    (∀ c ∈ comps, c ≠ [] ∧ '/' ∉ c) → noDS ('/' :: joinSlash comps) = true := by
  intro comps
  induction comps with
  | nil => intro _; rfl
  | cons c rest ih =>
    intro hv
    have hc := hv c (List.mem_cons_self c rest)
    cases rest with
    | nil =>
      show noDS ('/' :: joinSlash [c]) = true
      have : joinSlash [c] = c := rfl
      rw [this, ← List.append_nil c]
      exact noDS_root_append c [] hc.1 hc.2 rfl
    | cons r rs =>
      have hj : joinSlash (c :: r :: rs) = c ++ '/' :: joinSlash (r :: rs) := rfl
      rw [hj]
      refine noDS_root_append c ('/' :: joinSlash (r :: rs)) hc.1 hc.2 ?_
      exact ih fun g hg => hv g (List.mem_cons_of_mem c hg)

/-- Looking up the key just written. -/
theorem lookup_insert_self (k : GoStr) (v : GoFile) :
    ∀ (m : Index), lookupAL k (insertAL k v m) = some v
  | [] => by simp [insertAL, lookupAL]
  | (k', v') :: rest => by
    by_cases h : k' = k
    · subst h
      have e1 : insertAL k' v ((k', v') :: rest) = (k', v) :: rest := by
        simp [insertAL]
      rw [e1]
      show (if k' = k' then some v else lookupAL k' rest) = some v
      rw [if_pos rfl]
    · have e1 : insertAL k v ((k', v') :: rest) = (k', v') :: insertAL k v rest := by
        simp [insertAL, h]
      rw [e1]
      show (if k' = k then some v' else lookupAL k (insertAL k v rest)) = some v
      rw [if_neg h]
      exact lookup_insert_self k v rest

/-- Writing a different key does not change a lookup. -/
theorem lookup_insert_ne (k k' : GoStr) (v : GoFile) (h : k ≠ k') :
    ∀ (m : Index), lookupAL k' (insertAL k v m) = lookupAL k' m
  | [] => by
    show lookupAL k' [(k, v)] = none
    show (if k = k' then some v else lookupAL k' []) = none
    rw [if_neg h]
    rfl
  | (k₀, v₀) :: rest => by
    by_cases h0 : k₀ = k
    · subst h0
      have e1 : insertAL k₀ v ((k₀, v₀) :: rest) = (k₀, v) :: rest := by
        simp [insertAL]
      rw [e1]
      show (if k₀ = k' then some v else lookupAL k' rest) =
        lookupAL k' ((k₀, v₀) :: rest)
      rw [if_neg h]
      show lookupAL k' rest = if k₀ = k' then some v₀ else lookupAL k' rest
      rw [if_neg h]
    · have e1 : insertAL k v ((k₀, v₀) :: rest) = (k₀, v₀) :: insertAL k v rest := by
        simp [insertAL, h0]
      rw [e1]
      show (if k₀ = k' then some v₀ else lookupAL k' (insertAL k v rest)) =
        (if k₀ = k' then some v₀ else lookupAL k' rest)
      rw [lookup_insert_ne k k' v h rest]

/-- Indexing entries none of which has key `k` preserves the lookup of
`k`. -/
theorem lookup_indexfold_of_ne :
    ∀ (es : List ZipEntry) (m : Index) (k : GoStr),
      (∀ x ∈ es, ('/' :: x.name) ≠ k) →
      lookupAL k (es.foldl (fun acc x => insertAL ('/' :: x.name) (zipEntryFile x) acc) m) =
        lookupAL k m
  | [], _, _, _ => rfl
  | x :: rest, m, k, h => by
    have hx : ('/' :: x.name) ≠ k := h x (List.mem_cons_self x rest)
    show lookupAL k (rest.foldl _ (insertAL ('/' :: x.name) (zipEntryFile x) m)) = _
    rw [lookup_indexfold_of_ne rest _ k (fun y hy => h y (List.mem_cons_of_mem x hy))]
    exact lookup_insert_ne _ k _ hx m

/-- After `New`'s first loop, each entry of a duplicate-free archive is
indexed under `"/" + name` with its unzipped contents and header info. -/
theorem lookup_indexfold :
    ∀ (es : List ZipEntry) (m : Index) (e : ZipEntry),
      e ∈ es → (es.map ZipEntry.name).Nodup →
      lookupAL ('/' :: e.name)
        (es.foldl (fun acc x => insertAL ('/' :: x.name) (zipEntryFile x) acc) m) =
        some (zipEntryFile e)
  | [], _, _, hmem, _ => absurd hmem (List.not_mem_nil _)
  | x :: rest, m, e, hmem, hnd => by
    rcases List.mem_cons.mp hmem with he | he
    · subst he
      show lookupAL ('/' :: e.name) (rest.foldl _ (insertAL ('/' :: e.name) (zipEntryFile e) m)) = _
      have hne : ∀ y ∈ rest, ('/' :: y.name) ≠ ('/' :: e.name) := by
        intro y hy hcontra
        have : y.name = e.name := by
          injection hcontra
        have hnotin : e.name ∉ rest.map ZipEntry.name :=
          (List.nodup_cons.mp hnd).1
        exact hnotin (this ▸ List.mem_map_of_mem ZipEntry.name hy)
      rw [lookup_indexfold_of_ne rest _ _ hne]
      exact lookup_insert_self _ _ m
    · exact lookup_indexfold rest _ e he (List.nodup_cons.mp hnd).2

/-- The parent-synthesis pass never removes or overwrites an existing
entry: present lookups are preserved. -/
theorem lookup_dirfold :
    ∀ (ks : List GoStr) (m : Index) (k : GoStr) (v : GoFile),
      lookupAL k m = some v →
      lookupAL k
        (ks.foldl (fun acc fn =>
          let dn := pathDir fn
          if containsKey dn acc then acc else insertAL dn ⟨.dirInfo dn, []⟩ acc) m) =
        some v
  | [], _, _, _, h => h
  | fn :: rest, m, k, v, h => by
    refine lookup_dirfold rest _ k v ?_
    show lookupAL k
      (if containsKey (pathDir fn) m then m
        else insertAL (pathDir fn) ⟨.dirInfo (pathDir fn), []⟩ m) = some v
    by_cases hc : containsKey (pathDir fn) m
    · rw [if_pos hc]; exact h
    · rw [if_neg hc]
      by_cases hk : pathDir fn = k
      · exact absurd (hk ▸ congrArg Option.isSome h) (by simp [containsKey, hk] at hc ⊢; exact hc)
      · rw [lookup_insert_ne _ _ _ hk m]; exact h

/-- A non-hidden source file yields its archive entry. -/
theorem mem_zip_of_mem (tree : List SrcFile) (f : SrcFile) (hf : f ∈ tree)
    (hh : isHiddenName (srcBaseName f) = false) :
    (⟨joinSlash f.path, f.data, f.mode, f.modTime⟩ : ZipEntry) ∈ Zip tree := by
  unfold Zip
  exact List.mem_filterMap.mpr ⟨f, hf, by rw [hh]; rfl⟩

/-- The archive's entry names form a sublist of the tree's joined
paths, so distinct source paths give a duplicate-free archive. -/
theorem zip_names_sublist : ∀ (tree : List SrcFile),
    ((Zip tree).map ZipEntry.name).Sublist (tree.map fun g => joinSlash g.path) := by
  intro tree
  induction tree with
  | nil => simp [Zip]
  | cons g t ih =>
    show ((List.filterMap _ (g :: t)).map ZipEntry.name).Sublist _
    rw [List.filterMap_cons]
    cases hg : isHiddenName (srcBaseName g) with
    | true =>
      simp only [hg, if_true]
      exact (show ((Zip t).map ZipEntry.name).Sublist _ from ih).cons _
    | false =>
      simp only [hg, if_false, List.map_cons]
      exact (show ((Zip t).map ZipEntry.name).Sublist _ from ih).cons₂ _

/-- C1 (amended): the round trip holds for the files `Zip` actually
archives — those whose base name does not start with a dot.  For every
source tree of regular files at distinct well-formed relative paths
(nonempty slash-free components, no directory mode bit), and every file
in it that is not hidden, `Open("/" + relativePath)` on the constructed
file system succeeds with a regular-file handle whose reader holds
exactly the original bytes. -/
theorem statik_c1_roundtrip_nonhidden :
    ∀ (tree : List SrcFile) (f : SrcFile),
      f ∈ tree →
      (∀ g ∈ tree,
        g.path ≠ [] ∧ (∀ c ∈ g.path, c ≠ [] ∧ '/' ∉ c) ∧
          g.mode / modeDirBit % 2 = 0) →
      (tree.map fun g => joinSlash g.path).Nodup →
      isHiddenName (srcBaseName f) = false →
      ∃ h, (statikOf tree).Open ('/' :: joinSlash f.path) = some h ∧
        h.reader = some f.data ∧ h.isDir = false := by
  intro tree f hf hvalid hnodup hhid
  have hvf := hvalid f hf
  have hcoll : collapseSlashes ('/' :: joinSlash f.path) = '/' :: joinSlash f.path :=
    collapse_id _ (noDS_key f.path hvf.2.1)
  have hmem := mem_zip_of_mem tree f hf hhid
  have hnodupz : ((Zip tree).map ZipEntry.name).Nodup :=
    List.Nodup.sublist (zip_names_sublist tree) hnodup
  have hlook : lookupAL ('/' :: joinSlash f.path) (indexFiles (Zip tree)) =
      some (zipEntryFile ⟨joinSlash f.path, f.data, f.mode, f.modTime⟩) :=
    lookup_indexfold (Zip tree) [] _ hmem hnodupz
  have hlook2 : lookupAL ('/' :: joinSlash f.path) (statikOf tree).files =
      some (zipEntryFile ⟨joinSlash f.path, f.data, f.mode, f.modTime⟩) := by
    show lookupAL _ (addParents (indexFiles (Zip tree))) = _
    unfold addParents
    exact lookup_dirfold _ _ _ _ hlook
  have hnotdir :
      (zipEntryFile ⟨joinSlash f.path, f.data, f.mode, f.modTime⟩).info.fiIsDir = false := by
    show decide (f.mode / modeDirBit % 2 = 1) = false
    rw [hvf.2.2]
    decide
  refine ⟨newHTTPFile (statikOf tree)
    (zipEntryFile ⟨joinSlash f.path, f.data, f.mode, f.modTime⟩), ?_, ?_, ?_⟩
  · show (lookupAL (collapseSlashes ('/' :: joinSlash f.path)) (statikOf tree).files).map _ = _
    rw [hcoll, hlook2]
    rfl
  · unfold newHTTPFile
    rw [hnotdir]
    rfl
  · unfold newHTTPFile
    rw [hnotdir]
    rfl

/-- Witness for the amended C1 at a concrete input: the tree with the
single file `d/x.txt` containing bytes `[7, 8]`. -/
theorem statik_c1_witness :
    ∃ h, (statikOf [⟨[gs "d", gs "x.txt"], [7, 8], 0o644, 1⟩]).Open
        ('/' :: joinSlash [gs "d", gs "x.txt"]) = some h ∧
      h.reader = some [7, 8] ∧ h.isDir = false :=
  statik_c1_roundtrip_nonhidden
    [⟨[gs "d", gs "x.txt"], [7, 8], 0o644, 1⟩]
    ⟨[gs "d", gs "x.txt"], [7, 8], 0o644, 1⟩
    (by decide) (by decide) (by decide) (by decide)

/-- C1 counterexample (the claim as stated): `Zip` skips hidden files
(`strings.HasPrefix(fi.Name(), ".")`), so for the source tree holding
the single regular file `.a`, `Open("/.a")` on the round-tripped file
system fails with `NotFound` instead of yielding the file's bytes. -/
theorem statik_c1_counterexample :
    (statikOf [⟨[gs ".a"], [1, 2, 3], 0o644, 0⟩]).Open (gs "/.a") = none := by
  decide

/-! ## Chdir composition (C9) -/

/-- A base file system in which every path except `/a/x` opens as a
directory. -/
def c9Base : BaseFS :=
  ⟨fun s => if s = gs "/a/x" then none else some ⟨some true⟩⟩

/-- The result of `Chdir(Chdir(c9Base, "/a"), "b")`. -/
def c9FS2 : Option HFS :=
  (Chdir (.base c9Base) (gs "/a")).bind fun f1 => Chdir f1 (gs "b")

/-- C9 counterexample: after `Chdir(Chdir(base, "/a"), "b")`, opening
the name `/../x` delegates to the base at
`Join("/a/b", Clean("/../x")) = /a/b/x` (the leading `/..` of the name
is erased by cleaning the name *before* joining), which in `c9Base`
opens successfully — whereas the joined, cleaned path of `/a`, `b` and
`/../x` is `Join("/a", "b", "/../x") = /a/x`, at which the base fails.
The delegation target the claim names is therefore not the one the code
uses. -/
theorem statik_c9_counterexample :
    (c9FS2.map fun f => f.hfsOpen (gs "/../x")) = some (some ⟨some true⟩) ∧
    c9Base.openPath (goJoin [gs "/a", gs "b", gs "/../x"]) = none := by
  constructor
  · rfl
  · rfl

/-- C9 (amended): `Chdir` fails with `NotFound` exactly when the target
does not open and stat as a directory; and two successive `Chdir` calls
from a non-scoped base collapse to a single rebasing layer over the
original base whose prefix is `Clean(Join(d1, d2))` and whose
`Open(name)` delegates to the base at the join of that composed prefix
with the *cleaned* name — which differs from the joined, cleaned path
of `d1`, `d2` and `name` for absolute names with leading parent
references (see the counterexample). -/
theorem statik_c9_chdir_composition :
    (∀ (fsy : HFS) (dir : GoStr),
      Chdir fsy dir = none ↔ isExistingDir fsy dir = false) ∧
    (∀ (b : BaseFS) (d1 d2 : GoStr) (fs1 fs2 : HFS),
      Chdir (HFS.base b) d1 = some fs1 → Chdir fs1 d2 = some fs2 →
      fs2 = HFS.chdirFS (pathClean (pathJoin2 d1 d2)) (HFS.base b) ∧
      ∀ name, fs2.hfsOpen name =
        b.openPath (pathJoin2 (pathClean (pathJoin2 d1 d2)) (pathClean name))) := by
  constructor
  · intro fsy dir
    cases fsy with
    | base b =>
      show (if isExistingDir (.base b) dir then some (HFS.chdirFS dir (.base b))
        else none) = none ↔ _
      by_cases h : isExistingDir (.base b) dir
      · rw [if_pos h]
        simp [h]
      · rw [if_neg h]
        simp [Bool.of_not_eq_true h]
    | chdirFS p s =>
      show (if isExistingDir (.chdirFS p s) dir
          then some (HFS.chdirFS (pathClean (pathJoin2 p dir)) s)
          else none) = none ↔ _
      by_cases h : isExistingDir (.chdirFS p s) dir
      · rw [if_pos h]
        simp [h]
      · rw [if_neg h]
        simp [Bool.of_not_eq_true h]
  · intro b d1 d2 fs1 fs2 h1 h2
    have hfs1 : fs1 = HFS.chdirFS d1 (.base b) := by
      by_cases h : isExistingDir (.base b) d1
      · have : Chdir (.base b) d1 = some (HFS.chdirFS d1 (.base b)) := by
          show (if isExistingDir (.base b) d1 then _ else none) = _
          rw [if_pos h]
        rw [this] at h1
        exact (Option.some_inj.mp h1).symm
      · have : Chdir (.base b) d1 = none := by
          show (if isExistingDir (.base b) d1 then _ else none) = none
          rw [if_neg h]
        rw [this] at h1
        exact absurd h1 (by simp)
    subst hfs1
    have hfs2 : fs2 = HFS.chdirFS (pathClean (pathJoin2 d1 d2)) (.base b) := by
      by_cases h : isExistingDir (.chdirFS d1 (.base b)) d2
      · have : Chdir (.chdirFS d1 (.base b)) d2 =
            some (HFS.chdirFS (pathClean (pathJoin2 d1 d2)) (.base b)) := by
          show (if isExistingDir (.chdirFS d1 (.base b)) d2 then _ else none) = _
          rw [if_pos h]
        rw [this] at h2
        exact (Option.some_inj.mp h2).symm
      · have : Chdir (.chdirFS d1 (.base b)) d2 = none := by
          show (if isExistingDir (.chdirFS d1 (.base b)) d2 then _ else none) = none
          rw [if_neg h]
        rw [this] at h2
        exact absurd h2 (by simp)
    subst hfs2
    exact ⟨rfl, fun name => rfl⟩

/-- A base file system in which every path opens as a directory. -/
def c9AllDirs : BaseFS := ⟨fun _ => some ⟨some true⟩⟩

/-- Witness for the amended C9: composing `Chdir` twice over a base in
which everything is a directory, then opening `z`, delegates to the
base at `Join(Clean(Join("/a", "b")), Clean("z"))`. -/
theorem statik_c9_witness :
    (HFS.chdirFS (pathClean (pathJoin2 (gs "/a") (gs "b")))
        (.base c9AllDirs)).hfsOpen (gs "z") =
      c9AllDirs.openPath
        (pathJoin2 (pathClean (pathJoin2 (gs "/a") (gs "b"))) (pathClean (gs "z"))) :=
  (statik_c9_chdir_composition.2 c9AllDirs (gs "/a") (gs "b")
    (HFS.chdirFS (gs "/a") (.base c9AllDirs))
    (HFS.chdirFS (pathClean (pathJoin2 (gs "/a") (gs "b"))) (.base c9AllDirs))
    rfl rfl).2 (gs "z")

end Statik
